import Mathlib

/-!
Verification of the push/build correlation core of crash-clouseau
(src/crashclouseau/pushlog.py), as a shallow embedding in Lean 4.

Descriptions are embedded as lists of characters.  The two compiled
regular expressions of the source, BACKOUT_PAT and BUG_PAT, are embedded
as executable recognizers whose structure mirrors the patterns; matching
is case-insensitive via Char.toLower, faithful to re.IGNORECASE on the
ASCII alphabet the patterns use.
-/

namespace CrashClouseau

/-- Case-insensitive literal matching: strip the pattern `p` from the front
of `s`, comparing characters after Char.toLower (re.IGNORECASE).  Returns
the remaining input on success. -/
def stripCI : List Char → List Char → Option (List Char)
  | [], s => some s
  | _ :: _, [] => none
  | p :: ps, c :: cs => if p.toLower = c.toLower then stripCI ps cs else none

/-- The single mandatory space that follows the whole verb alternation of
BACKOUT_PAT: the next character must be a space. -/
def spaceHead (r : List Char) : Bool :=
  match r with
  | ' ' :: _ => true
  | _ => false

/-- After "out" the pattern allows one optional underscore before the
mandatory space: the input continues with " " or with "_ ". -/
def outTail (r : List Char) : Bool :=
  match r with
  | ' ' :: _ => true
  | '_' :: ' ' :: _ => true
  | _ => false

/-- The tail of BACKOUT_PAT after the verb stem "back" and its optional
suffix: the non-optional group consisting of zero or more space/underscore
joiners, the literal "out", an optional underscore, and then the single
mandatory space that follows the whole verb alternation in the pattern. -/
def matchBackTail (rest : List Char) : Bool :=
  match stripCI "out".data (rest.dropWhile fun c => c == ' ' || c == '_') with
  | some r => outTail r
  | none => false

/-- Optional suffixes of the verb stem "back" in BACKOUT_PAT:
the group (?:ed|ing|s)? . -/
def backSuffixes : List (List Char) := ["ed".data, "ing".data, "s".data, []]

/-- Optional suffixes of the verb stem "revert" in BACKOUT_PAT:
the group (?:ing|s)? . -/
def revertSuffixes : List (List Char) := ["ing".data, "s".data, []]

/-- Embedding of BACKOUT_PAT.match(desc) is not None, i.e. of
is_backed_out from src/crashclouseau/pushlog.py.  The pattern is
anchored at the start of the string; the trailing optional noun group
(?:(?:cset|changeset|revision|rev|of)s?)? never affects whether a match
exists (it can always match the empty string), so it is not modelled. -/
def is_backed_out (desc : List Char) : Bool :=
  (backSuffixes.any fun suf =>
    match stripCI ("back".data ++ suf) desc with
    | some rest => matchBackTail rest
    | none => false) ||
  (revertSuffixes.any fun suf =>
    match stripCI ("revert".data ++ suf) desc with
    | some rest => spaceHead rest
    | none => false)

/-- Numeric value of a run of decimal digits, as Python int() computes it
on the captured group of BUG_PAT. -/
def digitsToNat (l : List Char) : Nat :=
  l.foldl (fun a c => a * 10 + (c.toNat - 48)) 0

/-- Embedding of get_bug from src/crashclouseau/pushlog.py.
BUG_PAT.search with the start-anchored pattern (and no MULTILINE flag)
can only match at position 0, so the search is a match at the start:
the literal "bug" case-insensitively, a run of spaces/tabs, then a
non-empty maximal run of digits; its value on success, -1 otherwise. -/
def get_bug (desc : List Char) : Int :=
  match stripCI "bug".data desc with
  | none => -1
  | some rest =>
    let rest2 := rest.dropWhile fun c => c == ' ' || c == '\t'
    let ds := rest2.takeWhile Char.isDigit
    if ds.isEmpty then -1 else (digitsToNat ds : Int)


/-!
The changeset collector.  The raw payload from the json-pushes service is
a JSON object; in Python every key access `d[k]` either yields the value
or raises KeyError.  The embedding gives every expected key an Option
slot (None = the key is missing) and translates each access into a
lookup in the Except monad, so a missing key produces an error value
that propagates, exactly as the uncaught KeyError does. -/

/-- Raw changeset as received from the service: each expected key may be
missing.  Field order follows the order in which collect accesses them. -/
structure RawChangeset where
  files : Option (List String)
  desc : Option String
  author : Option String
  node : Option String
  parents : Option (List String)

/-- Raw push group: a timestamp and an ordered changeset list, either
possibly missing. -/
structure RawPush where
  date : Option Int
  changesets : Option (List RawChangeset)

/-- Raw payload: the top-level object with its possibly-missing "pushes"
key; the mapping push-group-id to push-group is kept in insertion order,
as Python dicts iterate it. -/
structure RawData where
  pushes : Option (List (String × RawPush))

/-- One classified record, as built by collect's dict literal.  `D` is the
type of converted dates (lmdutils.get_date_from_timestamp's codomain) and
`A` the Author Classifier's result type; both collaborators are external. -/
structure PushRecord (D A : Type) where
  date : D
  node : String
  backedout : Bool
  files : List String
  merge : Bool
  bug : Int
  author : A

/-- Key access `d[k]`: the value, or the propagating KeyError. -/
def lookupKey {α : Type} (o : Option α) (k : String) : Except String α :=
  match o with
  | some v => Except.ok v
  | none => Except.error ("KeyError: " ++ k)

/-- The body of collect's inner loop: classify one changeset.  `sr`
embeds utils.short_rev and `aa` hgauthors.analyze_author, the delegated
collaborators; `ff` is the file-relevance predicate; `pushdate` the
already-converted date of the enclosing push group. -/
def collectChangeset {D A : Type} (sr : String → String) (aa : String → A)
    (ff : String → Bool) (pushdate : D) (c : RawChangeset) :
    Except String (PushRecord D A) := do
  let fs ← lookupKey c.files "files"
  let files := fs.filter ff
  let desc ← lookupKey c.desc "desc"
  let author ← lookupKey c.author "author"
  let node ← lookupKey c.node "node"
  let parents ← lookupKey c.parents "parents"
  pure { date := pushdate, node := sr node, backedout := is_backed_out desc.data,
         files := files, merge := decide (parents.length > 1),
         bug := get_bug desc.data, author := aa author }

/-- collect's inner loop over `push["changesets"]`, appending the records
in the changesets' given order. -/
def collectChangesets {D A : Type} (sr : String → String) (aa : String → A)
    (ff : String → Bool) (pushdate : D) :
    List RawChangeset → Except String (List (PushRecord D A))
  | [] => Except.ok []
  | c :: cs => do
    let r ← collectChangeset sr aa ff pushdate c
    let rs ← collectChangesets sr aa ff pushdate cs
    pure (r :: rs)

/-- collect's outer loop over `data["pushes"].values()`, in the dict's
insertion order.  `gd` embeds lmdutils.get_date_from_timestamp, the
external timestamp-to-date conversion. -/
def collectPushes {D A : Type} (gd : Int → D) (sr : String → String)
    (aa : String → A) (ff : String → Bool) :
    List (String × RawPush) → Except String (List (PushRecord D A))
  | [] => Except.ok []
  | pr :: prs => do
    let date ← lookupKey pr.2.date "date"
    let cs ← lookupKey pr.2.changesets "changesets"
    let rs ← collectChangesets sr aa ff (gd date) cs
    let more ← collectPushes gd sr aa ff prs
    pure (rs ++ more)

/-- Embedding of collect from src/crashclouseau/pushlog.py: flatten every
push group's changesets, in order, into classified records. -/
def collect {D A : Type} (gd : Int → D) (sr : String → String)
    (aa : String → A) (data : RawData) (ff : String → Bool) :
    Except String (List (PushRecord D A)) := do
  let ps ← lookupKey data.pushes "pushes"
  collectPushes gd sr aa ff ps

/-! Well-shaped payloads: every expected key present.  These are exactly
the payloads in the image of the totally-typed model below. -/

/-- All five expected changeset keys are present. -/
def chgShaped (c : RawChangeset) : Bool :=
  c.files.isSome && c.desc.isSome && c.author.isSome && c.node.isSome &&
    c.parents.isSome

/-- Both expected push-group keys are present, and every changeset in the
group is shaped. -/
def pushShaped (p : RawPush) : Bool :=
  p.date.isSome &&
    (match p.changesets with
     | some cs => cs.all chgShaped
     | none => false)

/-- The top-level "pushes" key is present and every push group is shaped. -/
def wellShaped (d : RawData) : Bool :=
  match d.pushes with
  | some ps => ps.all fun pr => pushShaped pr.2
  | none => false

/-- Totally-typed changeset: a changeset with every expected key. -/
structure Changeset where
  node : String
  desc : String
  author : String
  parents : List String
  files : List String

/-- Totally-typed push group. -/
structure Push where
  date : Int
  changesets : List Changeset

/-- View a totally-typed changeset as a raw one (every key present). -/
def Changeset.toRaw (c : Changeset) : RawChangeset :=
  { files := some c.files, desc := some c.desc, author := some c.author,
    node := some c.node, parents := some c.parents }

/-- View a totally-typed push group as a raw one. -/
def Push.toRaw (p : Push) : RawPush :=
  { date := some p.date, changesets := some (p.changesets.map Changeset.toRaw) }

/-- A well-shaped payload built from totally-typed push groups. -/
def pushesToRaw (ps : List (String × Push)) : RawData :=
  { pushes := some (ps.map fun pr => (pr.1, pr.2.toRaw)) }

/-!
The remaining entry points.  HTTP transport, JSON decoding and the
repository-URL table (libmozdata's Mercurial.get_repo_url) are external
collaborators, abstracted as function parameters.
-/

/-- Embedding of pushlog_for_revs_url from src/crashclouseau/pushlog.py:
pure string construction over the channel's repository base URL. -/
def pushlog_for_revs_url (repo_url : String → String)
    (startrev endrev channel : String) : String :=
  repo_url channel ++ "/pushloghtml?fromchange=" ++ startrev ++
    "&tochange=" ++ endrev

/-- Embedding of pushlog from src/crashclouseau/pushlog.py.  Dates are
unix timestamps at second resolution (ℤ); relativedelta(seconds=1) is the
literal 1, and the strftime "%Y-%m-%d %H:%M:%S" formatting together with
the HTTP GET against json-pushes is the collaborator `json_pushes`,
queried at the widened bounds. -/
def pushlog {D A : Type} (gd : Int → D) (sr : String → String)
    (aa : String → A) (json_pushes : Int → Int → RawData)
    (startdate enddate : Int) (ff : String → Bool) :
    Except String (List (PushRecord D A)) :=
  collect gd sr aa (json_pushes (startdate - 1) (enddate + 1)) ff

/-- Modelled from the spec: the json-pushes service itself (external to
src/, behind the HTTP call) selects pushes by strict inequality on both
bounds — the source's comment "pushlog uses strict inequality" and the
spec's "the upstream service's strict-inequality convention".  `pushDb`
is an arbitrary universe of push groups with their timestamps. -/
def strictPushService (pushDb : List (String × Push)) (a b : Int) : RawData :=
  pushesToRaw (pushDb.filter fun pr => decide (a < pr.2.date ∧ pr.2.date < b))

/-- A build record as returned by the Build Lookup collaborators
(buildhub.get_two_last and models.Build.get_two_last): the field the
source reads is "revision". -/
structure Build where
  revision : String

/-- List indexing `data[i]`: the element, or the propagating IndexError. -/
def idx {α : Type} (l : List α) (i : Nat) : Except String α :=
  match l.get? i with
  | some x => Except.ok x
  | none => Except.error "IndexError"

/-- Embedding of pushlog_for_buildid from src/crashclouseau/pushlog.py.
`data` is the Build Lookup collaborator's response (buildhub.get_two_last,
external to src/; per the spec it returns zero, one, or two records);
`run` abstracts the delegated pushlog_for_revs call.  Python's `if data:`
is the non-emptiness test on the list; `data[0]` and `data[1]` are the
fallible index accesses. -/
def pushlog_for_buildid {R : Type} (data : List Build)
    (run : String → String → R) : Except String (Option R) :=
  if data.isEmpty then Except.ok none
  else do
    let b0 ← idx data 0
    let startrev := b0.revision
    let b1 ← idx data 1
    let endrev := b1.revision
    pure (some (run startrev endrev))

/-- Embedding of pushlog_for_buildid_url from src/crashclouseau/pushlog.py.
`modelsData` is the local persisted store's response
(models.Build.get_two_last) and `buildhubData` the remote archive's
(buildhub.get_two_last), both external to src/; the source falls back to
the remote archive when the local store yields anything but two records,
then tests truthiness and indexes. -/
def pushlog_for_buildid_url (modelsData buildhubData : List Build)
    (repo_url : String → String) (channel : String) :
    Except String (Option String) :=
  let data := if modelsData.length ≠ 2 then buildhubData else modelsData
  if data.isEmpty then Except.ok none
  else do
    let b0 ← idx data 0
    let startrev := b0.revision
    let b1 ← idx data 1
    let endrev := b1.revision
    pure (some (pushlog_for_revs_url repo_url startrev endrev channel))

/-!
Helper lemmas about the case-insensitive matcher.
-/

/-- Stripping succeeds on any input whose prefix agrees with the pattern
after lowercasing. -/
theorem stripCI_append (p : List Char) :
    ∀ b t : List Char, b.map Char.toLower = p.map Char.toLower →
      stripCI p (b ++ t) = some t := by
  induction p with
  | nil =>
    intro b t h
    have hb : b = [] := by simpa using congrArg List.length h
    simp [hb, stripCI]
  | cons q qs ih =>
    intro b t h
    cases b with
    | nil => simp at h
    | cons c cs =>
      simp only [List.map_cons, List.cons.injEq] at h
      simpa [stripCI, h.1] using ih cs t h.2

/-- If stripping succeeds, the input splits as a prefix that agrees with
the pattern after lowercasing, followed by the returned remainder. -/
theorem stripCI_some (p : List Char) :
    ∀ d t : List Char, stripCI p d = some t →
      ∃ b, d = b ++ t ∧ b.map Char.toLower = p.map Char.toLower := by
  induction p with
  | nil =>
    intro d t h
    simp only [stripCI, Option.some.injEq] at h
    exact ⟨[], by simp [h], rfl⟩
  | cons q qs ih =>
    intro d t h
    cases d with
    | nil => simp [stripCI] at h
    | cons c cs =>
      simp only [stripCI] at h
      split at h
      · obtain ⟨b, rfl, hb⟩ := ih cs t h
        exact ⟨c :: b, rfl, by simp [hb, *]⟩
      · exact absurd h (by simp)

/-- The remainder returned by a successful strip is a suffix of the input. -/
theorem stripCI_isSuffix (p d t : List Char) (h : stripCI p d = some t) :
    t <:+ d := by
  obtain ⟨b, rfl, -⟩ := stripCI_some p d t h
  exact ⟨b, rfl⟩

/-- A successful space test means a space is in the list. -/
theorem spaceHead_mem (r : List Char) (h : spaceHead r = true) : ' ' ∈ r := by
  unfold spaceHead at h
  split at h
  · exact List.mem_cons_self _ _
  · exact absurd h (by simp)

/-- A successful after-"out" test means a space is in the list. -/
theorem outTail_mem (r : List Char) (h : outTail r = true) : ' ' ∈ r := by
  unfold outTail at h
  split at h
  · exact List.mem_cons_self _ _
  · exact List.mem_cons_of_mem _ (List.mem_cons_self _ _)
  · exact absurd h (by simp)

/-- A successful back-verb tail match means a space is in the remainder. -/
theorem matchBackTail_mem (rest : List Char) (h : matchBackTail rest = true) :
    ' ' ∈ rest := by
  unfold matchBackTail at h
  split at h
  · next r hr =>
    have h2 := stripCI_isSuffix _ _ _ hr
    have h3 : (rest.dropWhile fun c => c == ' ' || c == '_') <:+ rest :=
      List.dropWhile_suffix _
    exact h3.subset (h2.subset (outTail_mem r h))
  · exact absurd h (by simp)

/-- The backout pattern can only match a description that contains a
space: its verb alternation is always followed by a mandatory space. -/
theorem is_backed_out_mem_space (d : List Char) (h : is_backed_out d = true) :
    ' ' ∈ d := by
  unfold is_backed_out at h
  rw [Bool.or_eq_true] at h
  rcases h with h | h
  · rcases List.any_eq_true.mp h with ⟨suf, _, hb⟩
    split at hb
    · next rest hr =>
      exact (stripCI_isSuffix _ _ _ hr).subset (matchBackTail_mem rest hb)
    · exact absurd hb (by simp)
  · rcases List.any_eq_true.mp h with ⟨suf, _, hb⟩
    split at hb
    · next rest hr =>
      exact (stripCI_isSuffix _ _ _ hr).subset (spaceHead_mem rest hb)
    · exact absurd hb (by simp)

/-- C10: the compiled backout pattern requires a literal space after the
matched verb form, so a description with no space at all (the bare
"REVERTS", the bare "revert") is never a backout; and "Reverted changeset
abcd", where "revert" is followed by "ed" rather than a space or a
recognized suffix, is not a backout either. -/
theorem backout_requires_space :
    (∀ d : List Char, ' ' ∉ d → is_backed_out d = false) ∧
    is_backed_out "REVERTS".data = false ∧
    is_backed_out "revert".data = false ∧
    is_backed_out "Reverted changeset abcd".data = false := by
  refine ⟨fun d hd => ?_, by decide, by decide, by decide⟩
  cases hb : is_backed_out d
  · rfl
  · exact absurd (is_backed_out_mem_space d hb) hd

/-- Witness for C10's universal part at the concrete spaceless
description "REVERTSX". -/
theorem backout_requires_space_witness :
    is_backed_out "REVERTSX".data = false :=
  backout_requires_space.1 ("REVERTSX".data) (by decide)

/-- C3 counterexample: "REVERTS" is a description starting (case-varied)
with "REVERTS", yet the detector reports false — the pattern demands a
space after the verb, so the claim as stated fails. -/
theorem backout_prefix_claim_counterexample :
    is_backed_out "REVERTS".data = false := by decide

/-- C3 amended: the detector answers true for every description starting
with "Backed out " (space included), "backing out changeset", "REVERTS "
(space included) or "revert of revision", in any following context;
it answers false on the bare "Backed out" with nothing after the verb
phrase, and false on "this reverts nothing important", where the mention
is not at the start. -/
theorem is_backed_out_contract :
    (∀ r : List Char, is_backed_out ("Backed out ".data ++ r) = true) ∧
    (∀ r : List Char, is_backed_out ("backing out changeset".data ++ r) = true) ∧
    (∀ r : List Char, is_backed_out ("REVERTS ".data ++ r) = true) ∧
    (∀ r : List Char, is_backed_out ("revert of revision".data ++ r) = true) ∧
    is_backed_out "Backed out".data = false ∧
    is_backed_out "this reverts nothing important".data = false := by
  exact ⟨fun r => rfl, fun r => rfl, fun r => rfl, fun r => rfl,
    by decide, by decide⟩

/-!
The bug-extractor contract.  The spec-side notion of a leading "bug NNN"
token, written from the spec's words: the description starts with "bug"
case-insensitively, then optional horizontal whitespace, then a
contiguous non-empty run of digits.
-/

/-- The description carries a leading "bug NNN" token in the sense of the
spec: a case-insensitive "bug", optional spaces/tabs, a non-empty
contiguous digit run. -/
def HasLeadingBugToken (d : List Char) : Prop :=
  ∃ b w n r, d = b ++ w ++ n ++ r ∧ b.map Char.toLower = "bug".data ∧
    (∀ c ∈ w, c = ' ' ∨ c = '\t') ∧ n ≠ [] ∧ ∀ c ∈ n, c.isDigit = true

/-- A digit is neither a space nor a tab. -/
theorem digit_not_space_tab (c : Char) (h : c.isDigit = true) :
    (c == ' ' || c == '\t') = false := by
  cases hst : (c == ' ' || c == '\t')
  · rfl
  · exfalso
    rw [Bool.or_eq_true] at hst
    rcases hst with h1 | h1 <;> rw [beq_iff_eq] at h1 <;> subst h1 <;>
      exact absurd h (by decide)

/-- On a description that decomposes as a leading "bug NNN" token whose
digit run is maximal, get_bug returns the value of the run. -/
theorem get_bug_of_decomp (b w n r : List Char)
    (hb : b.map Char.toLower = "bug".data)
    (hw : ∀ c ∈ w, c = ' ' ∨ c = '\t')
    (hn : n ≠ []) (hd : ∀ c ∈ n, c.isDigit = true)
    (hr : ∀ c, r.head? = some c → c.isDigit = false) :
    get_bug (b ++ w ++ n ++ r) = (digitsToNat n : Int) := by
  have hstrip : stripCI "bug".data (b ++ (w ++ (n ++ r))) = some (w ++ (n ++ r)) :=
    stripCI_append _ b _ (by rw [hb]; decide)
  have hwB : ∀ c ∈ w, (c == ' ' || c == '\t') = true := by
    intro c hc
    rcases hw c hc with rfl | rfl <;> decide
  have hdrop : (w ++ (n ++ r)).dropWhile (fun c => c == ' ' || c == '\t') = n ++ r := by
    rw [List.dropWhile_append_of_pos hwB]
    cases n with
    | nil => exact absurd rfl hn
    | cons c cs =>
      have : (c == ' ' || c == '\t') = false :=
        digit_not_space_tab c (hd c (List.mem_cons_self _ _))
      simp [List.dropWhile_cons, this]
  have htake : (n ++ r).takeWhile Char.isDigit = n := by
    rw [List.takeWhile_append_of_pos hd]
    cases r with
    | nil => simp
    | cons c cs => simp [List.takeWhile_cons, hr c rfl]
  unfold get_bug
  rw [show b ++ w ++ n ++ r = b ++ (w ++ (n ++ r)) by simp [List.append_assoc]]
  rw [hstrip]
  simp only [hdrop, htake]
  rw [if_neg (by simpa [List.isEmpty_iff] using hn)]

/-- On a description with no leading "bug NNN" token, get_bug returns the
-1 sentinel. -/
theorem get_bug_of_no_token (d : List Char) (h : ¬ HasLeadingBugToken d) :
    get_bug d = -1 := by
  unfold get_bug
  cases hs : stripCI "bug".data d with
  | none => rfl
  | some rest =>
    simp only
    set st : Char → Bool := fun c => c == ' ' || c == '\t' with hst
    set ds := (rest.dropWhile st).takeWhile Char.isDigit with hds
    cases he : ds.isEmpty
    · exfalso
      apply h
      obtain ⟨b, rfl, hb⟩ := stripCI_some _ _ _ hs
      refine ⟨b, rest.takeWhile st, ds, (rest.dropWhile st).dropWhile Char.isDigit,
        ?_, ?_, ?_, ?_, ?_⟩
      · rw [List.append_assoc, List.append_assoc]
        congr 1
        rw [hds, List.takeWhile_append_dropWhile, List.takeWhile_append_dropWhile]
      · rw [hb]; decide
      · intro c hc
        have := List.mem_takeWhile_imp hc
        rw [hst] at this
        rw [Bool.or_eq_true] at this
        rcases this with h1 | h1 <;> rw [beq_iff_eq] at h1
        · exact Or.inl h1
        · exact Or.inr h1
      · simpa [List.isEmpty_iff] using he
      · intro c hc
        exact List.mem_takeWhile_imp hc
    · simp [he]

/-- C2: get_bug extracts the value of the leading "bug NNN" token — a
case-insensitive "bug", optional spaces/tabs, a maximal contiguous digit
run — and returns the -1 sentinel (an Int, never an absent value) when no
such token starts the description; in particular a description with
leading token "bug 12345" yields 12345 and a token-free description
yields -1. -/
theorem get_bug_contract :
    (∀ b w n r : List Char, b.map Char.toLower = "bug".data →
      (∀ c ∈ w, c = ' ' ∨ c = '\t') → n ≠ [] → (∀ c ∈ n, c.isDigit = true) →
      (∀ c, r.head? = some c → c.isDigit = false) →
      get_bug (b ++ w ++ n ++ r) = (digitsToNat n : Int)) ∧
    (∀ d : List Char, ¬ HasLeadingBugToken d → get_bug d = -1) ∧
    get_bug "bug 12345 leading token".data = 12345 ∧
    get_bug "no bug reference here".data = -1 :=
  ⟨get_bug_of_decomp, get_bug_of_no_token, by decide, by decide⟩

/-- Witness for C2 at the concrete description "Bug 555: fix": the
decomposition hypotheses hold and the extractor returns 555. -/
theorem get_bug_contract_witness :
    get_bug ("Bug".data ++ " ".data ++ "555".data ++ ": fix".data) = 555 :=
  (get_bug_contract.1 ("Bug".data) (" ".data) ("555".data) (": fix".data)
    (by decide) (by decide) (by decide) (by decide) (by decide)).trans (by decide)

/-!
The collector on well-shaped payloads, and error propagation on
malformed ones.
-/

/-- Bind on a successful Except computation. -/
theorem ok_bind {ε α β : Type} (a : α) (f : α → Except ε β) :
    (Except.ok a >>= f) = f a := rfl

/-- Bind on a failed Except computation propagates the error. -/
theorem error_bind {ε α β : Type} (e : ε) (f : α → Except ε β) :
    ((Except.error e : Except ε α) >>= f) = Except.error e := rfl

/-- Classifying one fully-keyed changeset yields exactly the record the
source's dict literal builds. -/
theorem collectChangeset_toRaw {D A : Type} (sr : String → String)
    (aa : String → A) (ff : String → Bool) (pd : D) (c : Changeset) :
    collectChangeset sr aa ff pd (Changeset.toRaw c) =
      Except.ok { date := pd, node := sr c.node,
                  backedout := is_backed_out c.desc.data,
                  files := c.files.filter ff,
                  merge := decide (c.parents.length > 1),
                  bug := get_bug c.desc.data, author := aa c.author } := rfl

/-- The inner loop over fully-keyed changesets yields the records in the
changesets' given order. -/
theorem collectChangesets_toRaw {D A : Type} (sr : String → String)
    (aa : String → A) (ff : String → Bool) (pd : D) (cs : List Changeset) :
    collectChangesets sr aa ff pd (cs.map Changeset.toRaw) =
      Except.ok (cs.map fun c =>
        ({ date := pd, node := sr c.node,
           backedout := is_backed_out c.desc.data,
           files := c.files.filter ff,
           merge := decide (c.parents.length > 1),
           bug := get_bug c.desc.data, author := aa c.author } :
          PushRecord D A)) := by
  induction cs with
  | nil => rfl
  | cons c rest ih =>
    simp only [List.map_cons, collectChangesets, collectChangeset_toRaw,
      ok_bind, ih]
    rfl

/-- The raw view of a totally-typed push group has its date present. -/
theorem Push.toRaw_date (p : Push) : (Push.toRaw p).date = some p.date := rfl

/-- The raw view of a totally-typed push group has its changesets
present. -/
theorem Push.toRaw_changesets (p : Push) :
    (Push.toRaw p).changesets = some (p.changesets.map Changeset.toRaw) := rfl

/-- The outer loop over fully-keyed push groups flattens the per-group
record lists in the groups' given order. -/
theorem collectPushes_toRaw {D A : Type} (gd : Int → D) (sr : String → String)
    (aa : String → A) (ff : String → Bool) (ps : List (String × Push)) :
    collectPushes gd sr aa ff (ps.map fun pr => (pr.1, pr.2.toRaw)) =
      Except.ok ((ps.map fun pr => pr.2.changesets.map fun c =>
        ({ date := gd pr.2.date, node := sr c.node,
           backedout := is_backed_out c.desc.data,
           files := c.files.filter ff,
           merge := decide (c.parents.length > 1),
           bug := get_bug c.desc.data, author := aa c.author } :
          PushRecord D A)).flatten) := by
  induction ps with
  | nil => rfl
  | cons pr rest ih =>
    simp only [List.map_cons, collectPushes, Push.toRaw_date,
      Push.toRaw_changesets, lookupKey, ok_bind, collectChangesets_toRaw, ih]
    rfl

/-- collect on any well-shaped payload: each changeset of each push group
becomes one record, groups and changesets in their given order. -/
theorem collect_toRaw {D A : Type} (gd : Int → D) (sr : String → String)
    (aa : String → A) (ff : String → Bool) (ps : List (String × Push)) :
    collect gd sr aa (pushesToRaw ps) ff =
      Except.ok ((ps.map fun pr => pr.2.changesets.map fun c =>
        ({ date := gd pr.2.date, node := sr c.node,
           backedout := is_backed_out c.desc.data,
           files := c.files.filter ff,
           merge := decide (c.parents.length > 1),
           bug := get_bug c.desc.data, author := aa c.author } :
          PushRecord D A)).flatten) := by
  unfold collect pushesToRaw
  simp only [lookupKey, ok_bind]
  exact collectPushes_toRaw gd sr aa ff ps

/-- The scenario payload of the spec: one push group with two changesets,
the first a merge fixing bug 555, the second a single-parent backout. -/
def scenarioPushes : List (String × Push) :=
  [("1", { date := 100,
           changesets :=
             [{ node := "n1", desc := "Bug 555: fix", author := "alice",
                parents := ["p1", "p2"], files := ["a.cpp"] },
              { node := "n2",
                desc := "Backed out changeset abcd1234 (bug 555)",
                author := "bob", parents := ["p1"], files := [] }] })]

/-- C5: on every well-shaped payload collect emits, per changeset, a
record whose files are exactly the input files passing the predicate,
whose merge flag is parents-count greater than one, whose backedout flag
is the backout detector's answer, whose bug is the bug extractor's
answer, and whose author is the Author Classifier's result on the raw
author string; on the spec's two-changeset scenario the records are
merge/bug 555/not-backed-out and non-merge/bug -1/backed-out. -/
theorem collect_classifies :
    (∀ (D A : Type) (gd : Int → D) (sr : String → String) (aa : String → A)
      (ff : String → Bool) (ps : List (String × Push)),
      collect gd sr aa (pushesToRaw ps) ff =
        Except.ok ((ps.map fun pr => pr.2.changesets.map fun c =>
          ({ date := gd pr.2.date, node := sr c.node,
             backedout := is_backed_out c.desc.data,
             files := c.files.filter ff,
             merge := decide (c.parents.length > 1),
             bug := get_bug c.desc.data, author := aa c.author } :
            PushRecord D A)).flatten)) ∧
    collect (fun t => t) (fun s => s) (fun s => s) (pushesToRaw scenarioPushes)
        (fun _ => true) =
      Except.ok [⟨100, "n1", false, ["a.cpp"], true, 555, "alice"⟩,
                 ⟨100, "n2", true, [], false, -1, "bob"⟩] :=
  ⟨fun _ _ gd sr aa ff ps => collect_toRaw gd sr aa ff ps, rfl⟩

/-- C6: the output sequence follows the input push groups' insertion
order and, inside a group, the changesets' given order, with no
re-sorting; and every record carries its group's converted date, already
attached when the record leaves the collector. -/
theorem collect_order_and_dates (D A : Type) (gd : Int → D)
    (sr : String → String) (aa : String → A) (ff : String → Bool)
    (ps : List (String × Push)) :
    ∃ rs, collect gd sr aa (pushesToRaw ps) ff = Except.ok rs ∧
      rs.map (fun r => (r.date, r.node)) =
        (ps.map fun pr => pr.2.changesets.map fun c =>
          (gd pr.2.date, sr c.node)).flatten := by
  refine ⟨_, collect_toRaw gd sr aa ff ps, ?_⟩
  rw [List.map_flatten, List.map_map]
  congr 1
  congr 1
  funext pr
  rw [Function.comp_apply, List.map_map]
  rfl

/-- C9: collect is a pure function of the payload and its collaborators:
classifying the same raw payload twice yields identical ordered output.
The embedding is a function with no state — faithful to the source,
whose only module-level objects are the two immutably compiled
patterns. -/
theorem collect_deterministic (D A : Type) (gd : Int → D)
    (sr : String → String) (aa : String → A) (data : RawData)
    (ff : String → Bool) :
    collect gd sr aa data ff = collect gd sr aa data ff := rfl

/-- A changeset the inner loop classifies successfully has all five
expected keys. -/
theorem collectChangeset_ok_shaped {D A : Type} (sr : String → String)
    (aa : String → A) (ff : String → Bool) (pd : D) (c : RawChangeset)
    (r : PushRecord D A) (h : collectChangeset sr aa ff pd c = Except.ok r) :
    chgShaped c = true := by
  obtain ⟨files, desc, author, node, parents⟩ := c
  cases files <;> cases desc <;> cases author <;> cases node <;>
    cases parents <;>
    first
      | rfl
      | (exfalso; simp [collectChangeset, lookupKey, error_bind, ok_bind] at h)

/-- A changeset list the inner loop classifies successfully is made of
fully-keyed changesets. -/
theorem collectChangesets_ok_shaped {D A : Type} (sr : String → String)
    (aa : String → A) (ff : String → Bool) (pd : D) :
    ∀ (cs : List RawChangeset) (rs : List (PushRecord D A)),
      collectChangesets sr aa ff pd cs = Except.ok rs →
      cs.all chgShaped = true := by
  intro cs
  induction cs with
  | nil => intro rs _; rfl
  | cons c rest ih =>
    intro rs h
    unfold collectChangesets at h
    cases hc : collectChangeset sr aa ff pd c with
    | error e => rw [hc, error_bind] at h; exact absurd h (by simp)
    | ok r =>
      rw [hc, ok_bind] at h
      cases hcs : collectChangesets sr aa ff pd rest with
      | error e => rw [hcs, error_bind] at h; exact absurd h (by simp)
      | ok rs2 =>
        have h1 := collectChangeset_ok_shaped sr aa ff pd c r hc
        have h2 := ih rs2 hcs
        simp [List.all_cons, h1, h2]

/-- A push-group list the outer loop classifies successfully is made of
fully-keyed push groups. -/
theorem collectPushes_ok_shaped {D A : Type} (gd : Int → D)
    (sr : String → String) (aa : String → A) (ff : String → Bool) :
    ∀ (ps : List (String × RawPush)) (rs : List (PushRecord D A)),
      collectPushes gd sr aa ff ps = Except.ok rs →
      ps.all (fun pr => pushShaped pr.2) = true := by
  intro ps
  induction ps with
  | nil => intro rs _; rfl
  | cons pr rest ih =>
    intro rs h
    unfold collectPushes at h
    cases hdate : pr.2.date with
    | none => rw [hdate] at h; exact absurd h (by simp [lookupKey, ok_bind, error_bind])
    | some dt =>
      rw [hdate] at h
      cases hcs : pr.2.changesets with
      | none => rw [hcs] at h; exact absurd h (by simp [lookupKey, ok_bind, error_bind])
      | some cs =>
        rw [hcs] at h
        simp only [lookupKey, ok_bind] at h
        cases hc : collectChangesets sr aa ff (gd dt) cs with
        | error e => rw [hc, error_bind] at h; exact absurd h (by simp)
        | ok rs1 =>
          rw [hc, ok_bind] at h
          cases hrest : collectPushes gd sr aa ff rest with
          | error e => rw [hrest, error_bind] at h; exact absurd h (by simp)
          | ok rs2 =>
            have h1 := collectChangesets_ok_shaped sr aa ff (gd dt) cs rs1 hc
            have h2 := ih rs2 hrest
            rw [List.all_cons, Bool.and_eq_true]
            exact ⟨by simp [pushShaped, hdate, hcs, h1], h2⟩

/-- A payload collect classifies successfully is well-shaped: every
expected key was present. -/
theorem collect_ok_wellShaped {D A : Type} (gd : Int → D)
    (sr : String → String) (aa : String → A) (data : RawData)
    (ff : String → Bool) (rs : List (PushRecord D A))
    (h : collect gd sr aa data ff = Except.ok rs) :
    wellShaped data = true := by
  unfold collect at h
  cases hp : data.pushes with
  | none => rw [hp] at h; exact absurd h (by simp [lookupKey, ok_bind, error_bind])
  | some ps =>
    rw [hp] at h
    simp only [lookupKey, ok_bind] at h
    have := collectPushes_ok_shaped gd sr aa ff ps rs h
    simp [wellShaped, hp, this]

/-- C7: on every payload missing an expected key — the top-level
"pushes", a group's "date" or "changesets", or a changeset's "files",
"desc", "author", "node" or "parents" — collect propagates a structural
error (the KeyError of the failed access) to the caller, never an ok
result, partial or empty. -/
theorem collect_missing_key_error (D A : Type) (gd : Int → D)
    (sr : String → String) (aa : String → A) (data : RawData)
    (ff : String → Bool) (h : wellShaped data = false) :
    ∃ e, collect gd sr aa data ff = Except.error e := by
  cases hc : collect gd sr aa data ff with
  | ok rs =>
    have := collect_ok_wellShaped gd sr aa data ff rs hc
    rw [h] at this
    exact absurd this (by simp)
  | error e => exact ⟨e, rfl⟩

/-- A malformed payload: the push group is present but its only
changeset misses the "desc" key. -/
def missingDescData : RawData :=
  { pushes := some [("1",
      { date := some 5,
        changesets := some [{ files := some [], desc := none,
                              author := some "a", node := some "n",
                              parents := some [] }] })] }

/-- Witness for C7 at the concrete payload whose changeset misses
"desc". -/
theorem collect_missing_key_error_witness :
    ∃ e, collect (fun t => t) (fun s => s) (fun s => s) missingDescData
      (fun _ => true) = Except.error e :=
  collect_missing_key_error Int String (fun t => t) (fun s => s) (fun s => s)
    missingDescData (fun _ => true) (by decide)

/-!
The date-window, URL and build-id entry points.
-/

/-- C4: pushlog queries the service at startdate minus one second and
enddate plus one second; consequently, against a service that selects
pushes by the upstream strict-inequality convention, the query behaves
as the inclusive window — a push timestamped exactly at startdate or
exactly at enddate is selected. -/
theorem pushlog_inclusive_window :
    (∀ (D A : Type) (gd : Int → D) (sr : String → String) (aa : String → A)
      (js : Int → Int → RawData) (startdate enddate : Int)
      (ff : String → Bool),
      pushlog gd sr aa js startdate enddate ff =
        collect gd sr aa (js (startdate - 1) (enddate + 1)) ff) ∧
    (∀ (D A : Type) (gd : Int → D) (sr : String → String) (aa : String → A)
      (pushDb : List (String × Push)) (startdate enddate : Int)
      (ff : String → Bool),
      pushlog gd sr aa (strictPushService pushDb) startdate enddate ff =
        collect gd sr aa (pushesToRaw (pushDb.filter fun pr =>
          decide (startdate ≤ pr.2.date ∧ pr.2.date ≤ enddate))) ff) := by
  refine ⟨fun _ _ _ _ _ _ _ _ _ => rfl,
    fun D A gd sr aa pushDb startdate enddate ff => ?_⟩
  have hf : (pushDb.filter fun pr =>
        decide (startdate - 1 < pr.2.date ∧ pr.2.date < enddate + 1)) =
      pushDb.filter fun pr =>
        decide (startdate ≤ pr.2.date ∧ pr.2.date ≤ enddate) := by
    apply List.filter_congr
    intro pr _
    rw [decide_eq_decide]
    omega
  unfold pushlog strictPushService
  rw [hf]

/-- C8: the revision-window URL is pure string construction: the
channel's repository base, then "/pushloghtml?fromchange=", the start
revision, "&tochange=", the end revision; checked both in general and on
a concrete repository base. -/
theorem pushlog_for_revs_url_format :
    (∀ (repo_url : String → String) (startrev endrev channel : String),
      pushlog_for_revs_url repo_url startrev endrev channel =
        repo_url channel ++ "/pushloghtml?fromchange=" ++ startrev ++
          "&tochange=" ++ endrev) ∧
    pushlog_for_revs_url (fun _ => "https://hg.example.org/repo")
        ("abc123") ("def456") ("nightly") =
      "https://hg.example.org/repo/pushloghtml?fromchange=abc123&tochange=def456" :=
  ⟨fun _ _ _ _ => rfl, rfl⟩

/-- C1 evaluated where it fails: with zero builds from the Build Lookup
collaborator the by-build-id correlation does return the no-result value,
but with exactly one build it evaluates data[1] and raises an index
error instead of returning the no-result value — in both the pushlog
variant and the URL variant (the latter with the local store empty, so
the single record comes from the remote-archive fallback); with two
builds both succeed. -/
theorem pushlog_for_buildid_one_build_raises :
    pushlog_for_buildid ([] : List Build) (fun a b : String => a ++ b) =
      Except.ok none ∧
    pushlog_for_buildid [Build.mk "aaaa"] (fun a b : String => a ++ b) =
      Except.error "IndexError" ∧
    pushlog_for_buildid_url [] [Build.mk "aaaa"]
        (fun _ => "https://hg.example.org/repo") ("nightly") =
      Except.error "IndexError" ∧
    pushlog_for_buildid [Build.mk "r1", Build.mk "r2"]
        (fun a b : String => a ++ "|" ++ b) =
      Except.ok (some "r1|r2") ∧
    pushlog_for_buildid_url [] [Build.mk "r1", Build.mk "r2"]
        (fun _ => "https://hg.example.org/repo") ("nightly") =
      Except.ok (some
        "https://hg.example.org/repo/pushloghtml?fromchange=r1&tochange=r2") :=
  ⟨rfl, rfl, rfl, rfl, rfl⟩

end CrashClouseau
